import Mathlib

/-!
# Verification of the openmm-velocityVerlet integration engine

A shallow embedding, over `ℚ` with an abstract exponential function, of the
orchestration core of the `VVIntegrator` (velocity-Verlet integrator with
Nose-Hoover chain thermostats) and of the degree-of-freedom accounting of the
`CudaModifyDrudeNoseKernel`, together with proofs about them.

The C++ `double` arithmetic of the source is modelled by exact rational
arithmetic; the transcendental `exp` is an explicit function parameter `E`
(the claims proved here use at most the exact identity `exp 0 = 1`, which
holds for IEEE `exp` as well).  Division is rational division; in addition the
chain propagator records, in a boolean field `divZero`, whether any division
whose divisor is zero was executed, so that "performs no division by zero"
becomes a statable property of a run.
-/

namespace VV

/-- Result state of `propagateNHChain`: the three mutated chain vectors, the
velocity-scale factor accumulated in `factor`, and the instrumentation flag
`divZero`, true iff some executed division had a zero divisor. -/
structure ChainState where
  eta : List ℚ
  etaDot : List ℚ
  etaDotDot : List ℚ
  factor : ℚ
  divZero : Bool
  deriving Repr, DecidableEq

/-- The inward sweep of `VVIntegrator::propagateNHChain`
(`for (int ich = numNHChains - 1; ich >= 0; ich--)`, VVIntegrator.cpp:285-290):
`expfac = exp(-dt8 * eta_dot[ich+1]); eta_dot[ich] *= expfac;
eta_dot[ich] += eta_dotdot[ich] * dt4; eta_dot[ich] *= expfac;`.
The counter `k` is the number of loop iterations still to run, so the call
with `k = numNHChains` visits `ich = numNHChains-1, ..., 0` in source order.
The second component threads the C++ local variable `expfac`, whose value
after the loop (from the `ich = 0` iteration) is reused at line 297; its
initial value models the (never read when `numNHChains ≥ 1`) pre-loop
content of that local. -/
def sweepIn (E : ℚ → ℚ) (dt4 dt8 : ℚ) (edd : List ℚ) :
    ℕ → List ℚ → ℚ → List ℚ × ℚ
  | 0, ed, expfac => (ed, expfac)
  | k + 1, ed, _ =>
      let expfac := E (-dt8 * ed.getD (k + 1) 0)
      let d := ed.getD k 0 * expfac
      let d := d + edd.getD k 0 * dt4
      let d := d * expfac
      sweepIn E dt4 dt8 edd k (ed.set k d) expfac

/-- The outward sweep of `VVIntegrator::propagateNHChain`
(`for (int ich = 1; ich < numNHChains; ich++)`, VVIntegrator.cpp:300-307):
`expfac = exp(-dt8 * eta_dot[ich+1]); eta_dot[ich] *= expfac;
eta_dotdot[ich] = (eta_mass[ich-1]*eta_dot[ich-1]*eta_dot[ich-1]
                   - BOLTZ*t_target) / eta_mass[ich];
eta_dot[ich] += eta_dotdot[ich] * dt4; eta_dot[ich] *= expfac;`.
`ich` is the current loop index and `fuel` the number of iterations left
(`numNHChains - ich`).  `kb` stands for the `BOLTZ` constant of
SimTKOpenMMRealType.h.  The boolean accumulates `divZero`. -/
def sweepOut (E : ℚ → ℚ) (kb t_target dt4 dt8 : ℚ) (mass : List ℚ) :
    ℕ → ℕ → List ℚ → List ℚ → Bool → List ℚ × List ℚ × Bool
  | _, 0, ed, edd, dz => (ed, edd, dz)
  | ich, fuel + 1, ed, edd, dz =>
      let expfac := E (-dt8 * ed.getD (ich + 1) 0)
      let d := ed.getD ich 0 * expfac
      let m := mass.getD ich 0
      let ddNew := (mass.getD (ich - 1) 0 * ed.getD (ich - 1) 0 * ed.getD (ich - 1) 0
                    - kb * t_target) / m
      let d := d + ddNew * dt4
      let d := d * expfac
      sweepOut E kb t_target dt4 dt8 mass (ich + 1) fuel
        (ed.set ich d) (edd.set ich ddNew) (dz || decide (m = 0))

/-- `for (int ich = 0; ich < numNHChains; ich++) eta[ich] += dt2 * eta_dot[ich];`
(VVIntegrator.cpp:293-294). -/
def advanceEta (dt2 : ℚ) (ed : List ℚ) (n : ℕ) (eta : List ℚ) : List ℚ :=
  (List.range n).foldl (fun ac ich => ac.set ich (ac.getD ich 0 + dt2 * ed.getD ich 0)) eta

/-- One iteration of the `for (int iloop = 0; ...)` loop of
`VVIntegrator::propagateNHChain` (VVIntegrator.cpp:284-308): inward sweep,
`factor *= exp(-dt2 * eta_dot[0])`, advance `eta`, recompute
`eta_dotdot[0] = (ke2*factor*factor - ke2_target) / eta_mass[0]` (unguarded),
re-apply the innermost `eta_dot[0]` half-kick with the `expfac` left over
from the inward sweep, then the outward sweep. -/
def subIter (E : ℚ → ℚ) (kb dt2 dt4 dt8 : ℚ) (n : ℕ) (mass : List ℚ)
    (ke2 ke2_target t_target : ℚ) (s : ChainState) : ChainState :=
  let p := sweepIn E dt4 dt8 s.etaDotDot n s.etaDot 1
  let ed := p.1
  let expfac := p.2
  let factor := s.factor * E (-dt2 * ed.getD 0 0)
  let eta := advanceEta dt2 ed n s.eta
  let m0 := mass.getD 0 0
  let dd0 := (ke2 * factor * factor - ke2_target) / m0
  let edd := s.etaDotDot.set 0 dd0
  let d0 := ed.getD 0 0 * expfac
  let d0 := d0 + dd0 * dt4
  let d0 := d0 * expfac
  let ed := ed.set 0 d0
  let q := sweepOut E kb t_target dt4 dt8 mass 1 (n - 1) ed edd
    (s.divZero || decide (m0 = 0))
  { eta := eta, etaDot := q.1, etaDotDot := q.2.1, factor := factor,
    divZero := q.2.2 }

/-- The `for (int iloop = 0; iloop < loopsPerStep; iloop++)` loop of
`VVIntegrator::propagateNHChain` (VVIntegrator.cpp:284), with the number of
iterations still to run as fuel. -/
def nhLoop (E : ℚ → ℚ) (kb dt2 dt4 dt8 : ℚ) (n : ℕ) (mass : List ℚ)
    (ke2 ke2_target t_target : ℚ) : ℕ → ChainState → ChainState
  | 0, s => s
  | k + 1, s => nhLoop E kb dt2 dt4 dt8 n mass ke2 ke2_target t_target k
      (subIter E kb dt2 dt4 dt8 n mass ke2 ke2_target t_target s)

/-- `VVIntegrator::propagateNHChain` (VVIntegrator.cpp:272-309), embedded over
`ℚ` with an abstract exponential `E` and the Boltzmann constant `kb` as
parameters.  `dt2 = stepSize / loopsPerStep / 2`, `dt4 = dt2 / 2`,
`dt8 = dt4 / 2`; `factor` starts at `1.0`; the initial
`eta_dotdot[0] = (ke2 - ke2_target) / eta_mass[0]` assignment is guarded by
`eta_mass[0] > 0` exactly as at VVIntegrator.cpp:282-283; then the
`loopsPerStep` sub-iterations run. -/
def propagateNHChain (E : ℚ → ℚ) (kb stepSize : ℚ) (loopsPerStep numNHChains : ℕ)
    (mass : List ℚ) (ke2 ke2_target t_target : ℚ)
    (eta ed edd : List ℚ) : ChainState :=
  let dt2 := stepSize / (loopsPerStep : ℚ) / 2
  let dt4 := dt2 / 2
  let dt8 := dt4 / 2
  let edd := if mass.getD 0 0 > 0 then edd.set 0 ((ke2 - ke2_target) / mass.getD 0 0) else edd
  nhLoop E kb dt2 dt4 dt8 numNHChains mass ke2 ke2_target t_target loopsPerStep
    { eta := eta, etaDot := ed, etaDotDot := edd, factor := 1, divZero := false }

/-! ## The reference sequence of spec §4.3, transcribed from the spec's words

These definitions follow the natural-language algorithm of §4.3 of the
specification step by step (they are deliberately written from the spec's
sentences, to be compared with the embedding of the source above). -/

/-- Chain state as §4.3 describes it: the three vectors and the running
scale factor. -/
structure SpecChainState where
  eta : List ℚ
  etaDot : List ℚ
  etaDotDot : List ℚ
  scale : ℚ
  deriving Repr, DecidableEq

/-- §4.3 step 1: "for `ich` from `numNHChains−1` down to `0`, apply
`expfac = exp(−dt8 · etaDot[ich+1])`, then
`etaDot[ich] = (etaDot[ich]·expfac + etaDotDot[ich]·dt4)·expfac`."
Also returns the last `expfac` (the one of `ich = 0`), reused in step 4. -/
def specSweepIn (E : ℚ → ℚ) (dt4 dt8 : ℚ) (edd : List ℚ) :
    ℕ → List ℚ → ℚ → List ℚ × ℚ
  | 0, ed, expfac => (ed, expfac)
  | k + 1, ed, _ =>
      let expfac := E (-dt8 * ed.getD (k + 1) 0)
      specSweepIn E dt4 dt8 edd k
        (ed.set k ((ed.getD k 0 * expfac + edd.getD k 0 * dt4) * expfac)) expfac

/-- §4.3 step 5: "Propagate `etaDot` from link 1 outward to `numNHChains−1`,
recomputing each
`etaDotDot[ich] = (etaMass[ich−1]·etaDot[ich−1]² − kb·targetTemperature) / etaMass[ich]`
before applying its half-kick" (the half-kick being the
`(etaDot·expfac + etaDotDot·dt4)·expfac` pattern of step 1). -/
def specSweepOut (E : ℚ → ℚ) (kb t_target dt4 dt8 : ℚ) (mass : List ℚ) :
    ℕ → ℕ → List ℚ → List ℚ → List ℚ × List ℚ
  | _, 0, ed, edd => (ed, edd)
  | ich, fuel + 1, ed, edd =>
      let expfac := E (-dt8 * ed.getD (ich + 1) 0)
      let dd := (mass.getD (ich - 1) 0 * ed.getD (ich - 1) 0 ^ 2 - kb * t_target)
                / mass.getD ich 0
      specSweepOut E kb t_target dt4 dt8 mass (ich + 1) fuel
        (ed.set ich ((ed.getD ich 0 * expfac + dd * dt4) * expfac)) (edd.set ich dd)

/-- One sub-iteration of §4.3: steps 1 to 5 in order.  Step 2 multiplies the
running scale factor by `exp(−dt2·etaDot[0])`; step 3 advances every
`eta[ich] += dt2·etaDot[ich]`; step 4 recomputes
`etaDotDot[0] = (ke2·scale² − ke2_target)/etaMass[0]` and re-applies the
innermost `etaDot[0]` update with the same `expfac`/`dt4` pattern. -/
def specSubIter (E : ℚ → ℚ) (kb dt2 dt4 dt8 : ℚ) (n : ℕ) (mass : List ℚ)
    (ke2 ke2_target t_target : ℚ) (s : SpecChainState) : SpecChainState :=
  let p := specSweepIn E dt4 dt8 s.etaDotDot n s.etaDot 1
  let ed := p.1
  let expfac := p.2
  let scale := s.scale * E (-dt2 * ed.getD 0 0)
  let eta := advanceEta dt2 ed n s.eta
  let dd0 := (ke2 * scale ^ 2 - ke2_target) / mass.getD 0 0
  let edd := s.etaDotDot.set 0 dd0
  let ed := ed.set 0 ((ed.getD 0 0 * expfac + dd0 * dt4) * expfac)
  let q := specSweepOut E kb t_target dt4 dt8 mass 1 (n - 1) ed edd
  { eta := eta, etaDot := q.1, etaDotDot := q.2, scale := scale }

/-- The `loopsPerStep` sub-iterations of §4.3. -/
def specLoop (E : ℚ → ℚ) (kb dt2 dt4 dt8 : ℚ) (n : ℕ) (mass : List ℚ)
    (ke2 ke2_target t_target : ℚ) : ℕ → SpecChainState → SpecChainState
  | 0, s => s
  | k + 1, s => specLoop E kb dt2 dt4 dt8 n mass ke2 ke2_target t_target k
      (specSubIter E kb dt2 dt4 dt8 n mass ke2 ke2_target t_target s)

/-- The full reference algorithm of §4.3: `dt2 = stepSize/loopsPerStep/2`,
`dt4 = dt2/2`, `dt8 = dt4/2`; scale factor initialized to `1.0`;
`etaDotDot[0] = (ke2 − ke2_target)/etaMass[0]`; then the `loopsPerStep`
sub-iterations. -/
def specPropagateNHChain (E : ℚ → ℚ) (kb stepSize : ℚ) (loopsPerStep numNHChains : ℕ)
    (mass : List ℚ) (ke2 ke2_target t_target : ℚ)
    (eta ed edd : List ℚ) : SpecChainState :=
  let dt2 := stepSize / (loopsPerStep : ℚ) / 2
  let dt4 := dt2 / 2
  let dt8 := dt4 / 2
  specLoop E kb dt2 dt4 dt8 numNHChains mass ke2 ke2_target t_target loopsPerStep
    { eta := eta, etaDot := ed, etaDotDot := edd.set 0 ((ke2 - ke2_target) / mass.getD 0 0),
      scale := 1 }

/-! ## Degree-of-freedom accounting of `CudaModifyDrudeNoseKernel`

Embedding of the `tempGroupDof` computation of
`CudaModifyDrudeNoseKernel` bind-time setup (CudaVVKernels.cpp:288-378).
The per-group counts are `double`s in the source, hence `ℚ` here; the three
temperature groups are `TG_ATOM`, `TG_COM`, `TG_DRUDE`
(CudaVVKernels.cpp:48). -/

/-- What the DOF accounting reads of one system particle: its mass, whether
`integrator.isParticleNH(i)` holds, and `integrator.getResInvMass(resid)` of
its residue (CudaVVKernels.cpp:320-323). -/
structure DofParticle where
  mass : ℚ
  isNH : Bool
  resInvMass : ℚ
  deriving Repr, DecidableEq

/-- The inputs of the DOF accounting: the particles, one flag per Drude-force
particle entry telling whether its core `p` is NH-thermostatted
(CudaVVKernels.cpp:332-342), one flag per constraint telling whether its
first particle `p` is NH-thermostatted (CudaVVKernels.cpp:348-354),
the COM-temperature-group switch, whether a `CMMotionRemover` force is
present, and the number of NH residues (`residuesNHVec.size()`). -/
structure DofSystem where
  particles : List DofParticle
  drudeCoreIsNH : List Bool
  constraintIsNH : List Bool
  useCOMTempGroup : Bool
  hasCMMotionRemover : Bool
  numResiduesNH : ℕ
  deriving Repr, DecidableEq

/-- The three per-group DOF counts, in the order of the
`enum{TG_ATOM, TG_COM, TG_DRUDE}` of CudaVVKernels.cpp:48. -/
structure TempGroupDof where
  atom : ℚ
  com : ℚ
  drude : ℚ
  deriving Repr, DecidableEq

/-- The particle loop of CudaVVKernels.cpp:315-329 restricted to its
`tempGroupDof` effect: for each particle with `isParticleNH(i) && mass != 0`,
`tempGroupDof[TG_ATOM] += 3`, and if `getUseCOMTempGroup()`,
`tempGroupDof[TG_ATOM] -= 3 * mass * resInvMass`. -/
def dofParticleLoop (useCOM : Bool) (ps : List DofParticle) (atom : ℚ) : ℚ :=
  ps.foldl (fun a p =>
    if p.isNH = true ∧ p.mass ≠ 0 then
      let a := a + 3
      if useCOM = true then a - 3 * p.mass * p.resInvMass else a
    else a) atom

/-- `CudaModifyDrudeNoseKernel` bind-time DOF accounting
(CudaVVKernels.cpp:288-378): particle loop, Drude-pair loop
(`tempGroupDof[TG_ATOM] -= 3; tempGroupDof[TG_DRUDE] += 3` per NH core),
constraint loop (`tempGroupDof[TG_ATOM] -= 1` per NH constraint),
`tempGroupDof[TG_COM] = 3 * residuesNHVec.size()` when the COM group is used,
the `CMMotionRemover` correction, and the final clamp
`tempGroupDof[i] = max(tempGroupDof[i], 0)`. -/
def computeTempGroupDof (sys : DofSystem) : TempGroupDof :=
  let atom := dofParticleLoop sys.useCOMTempGroup sys.particles 0
  let atom := sys.drudeCoreIsNH.foldl (fun a c => if c = true then a - 3 else a) atom
  let drude := sys.drudeCoreIsNH.foldl (fun a c => if c = true then a + 3 else a) 0
  let atom := sys.constraintIsNH.foldl (fun a c => if c = true then a - 1 else a) atom
  let com : ℚ := if sys.useCOMTempGroup = true then 3 * (sys.numResiduesNH : ℚ) else 0
  let atom := if sys.hasCMMotionRemover = true ∧ ¬ sys.useCOMTempGroup = true
              then atom - 3 else atom
  let com := if sys.hasCMMotionRemover = true ∧ sys.useCOMTempGroup = true
             then com - 3 else com
  { atom := max atom 0, com := max com 0, drude := max drude 0 }

/-! ## Residue classification of `VVIntegrator::initialize`

Embedding of the NH/Langevin residue classification of
VVIntegrator.cpp:123-136.  A particle is described by the predicates
`isParticleLD` and `isParticleImage` and its residue id `resId`; the two
`for (int i = 0; i < system.getNumParticles(); i++)` loops are embedded as
recursion on the particle count (the `n+1` case appends the `i = n`
iteration of the ascending loop). -/

/-- `particlesNH` as built by VVIntegrator.cpp:123-130: every particle `i`
with `!isParticleLD(i) && !isParticleImage(i)`, in increasing order. -/
def particlesNHList (isLD isImage : ℕ → Bool) : ℕ → List ℕ
  | 0 => []
  | n + 1 =>
      let l := particlesNHList isLD isImage n
      if isLD n = false ∧ isImage n = false then l ++ [n] else l

/-- `residuesNH` as built by VVIntegrator.cpp:126-128: the residue id of each
NH particle is appended if `std::find` does not already locate it. -/
def residuesNHList (isLD isImage : ℕ → Bool) (resId : ℕ → ℕ) : ℕ → List ℕ
  | 0 => []
  | n + 1 =>
      let l := residuesNHList isLD isImage resId n
      if isLD n = false ∧ isImage n = false then
        if resId n ∈ l then l else l ++ [resId n]
      else l

/-- The classification stage of `VVIntegrator::initialize`
(VVIntegrator.cpp:123-136): build `particlesNH` and `residuesNH`, then throw
`OpenMMException("NH and Langevin thermostat cannot be applied on the same
molecule")` if some particle is Langevin-thermostatted and its residue is in
`residuesNH` (the loop at lines 131-136 throws at the first such particle;
the embedding returns the error iff one exists). -/
def classifyResidues (numParticles : ℕ) (isLD isImage : ℕ → Bool) (resId : ℕ → ℕ) :
    Except String (List ℕ × List ℕ) :=
  let rNH := residuesNHList isLD isImage resId numParticles
  if ∃ i ∈ List.range numParticles, isLD i = true ∧ resId i ∈ rNH then
    Except.error "NH and Langevin thermostat cannot be applied on the same molecule"
  else
    Except.ok (particlesNHList isLD isImage numParticles, rNH)

/-! ## Controller guards and image-pair registration -/

/-- The binding guard of `VVIntegrator::initialize` (VVIntegrator.cpp:89-91):
`if (owner != NULL && &contextRef.getOwner() != owner) throw
OpenMMException("This Integrator is already bound to a context")`.  Owners
(addresses of `Context` objects) are modelled as naturals; `owner` is the
stored owner pointer, `none` standing for `NULL`. -/
def bindGuard (owner : Option ℕ) (newOwner : ℕ) : Except String Unit :=
  if owner ≠ none ∧ some newOwner ≠ owner then
    Except.error "This Integrator is already bound to a context"
  else
    Except.ok ()

/-- `VVIntegrator::step` (VVIntegrator.cpp:197-270): throw
`OpenMMException("This Integrator is not bound to a context!")` when
`context == NULL`, else run the per-step sequence `steps` times.  The
per-step body (lines 200-269) dispatches to the bound context and kernels;
it is abstracted as a transition `stepOnce` on the context state `σ`. -/
def stepIntegrator {σ : Type} (context : Option σ) (stepOnce : σ → σ) (steps : ℕ) :
    Except String σ :=
  match context with
  | none => Except.error "This Integrator is not bound to a context!"
  | some s => Except.ok (stepOnce^[steps] s)

/-- The image-pair registry of the integrator: `particlesImage` and
`imagePairs` (both appended by `addImagePair`). -/
structure ImageRegistry where
  particlesImage : List ℕ
  imagePairs : List (ℕ × ℕ)
  deriving Repr, DecidableEq

/-- `VVIntegrator::addImagePair` (VVIntegrator.cpp:73-77):
`particlesImage.push_back(image); imagePairs.emplace_back(image, parent);
return imagePairs.size();`. -/
def addImagePair (s : ImageRegistry) (image parent : ℕ) : ImageRegistry × ℕ :=
  let s := { particlesImage := s.particlesImage ++ [image],
             imagePairs := s.imagePairs ++ [(image, parent)] : ImageRegistry }
  (s, s.imagePairs.length)

/-- A sequence of `addImagePair` calls threaded through the registry,
returning the list of returned indices. -/
def runAddImagePairs (s : ImageRegistry) : List (ℕ × ℕ) → List ℕ
  | [] => []
  | (image, parent) :: rest =>
      let r := addImagePair s image parent
      r.2 :: runAddImagePairs r.1 rest

/-! ## Helper lemmas on list updates -/

/-- Writing one slot of a chain vector leaves every other slot's
defaulted read unchanged. -/
lemma getD_set_ne (l : List ℚ) (i j : ℕ) (v : ℚ) (h : i ≠ j) :
    (l.set i v).getD j 0 = l.getD j 0 := by
  simp [List.getD_eq_getElem?_getD, List.getElem?_set_ne h]

/-- Writing `0` into a slot makes its defaulted read `0`, whether or not the
index is in range. -/
lemma getD_set_self_zero (l : List ℚ) (i : ℕ) : (l.set i (0 : ℚ)).getD i 0 = 0 := by
  rcases lt_or_le i l.length with h | h
  · simp [List.getD_eq_getElem?_getD, List.getElem?_set_self, h]
  · simp [List.set_eq_of_length_le h, List.getD_eq_getElem?_getD, List.getElem?_eq_none h]

/-! ## Claim theorems -/

/-- C1: the claim says a zero innermost chain mass makes `propagateNHChain`
inert (scale factor exactly `1.0`, no division by the zero chain mass).  The
code guards only the initial `eta_dotdot[0]` assignment
(VVIntegrator.cpp:282); the recomputation inside the loop
(VVIntegrator.cpp:296) divides by `eta_mass[0]` unconditionally.  At the
input `etaMass = [0]`, `numNHChains = loopsPerStep = 1`, `etaDot = [1, 0]`,
`ke2 = 1`, `ke2_target = 0` (exponential stand-in `E x = 1 + x`, which like
IEEE `exp` satisfies `E 0 = 1`, step size `1`), the run executes a division
with zero divisor and returns scale factor `1/2 ≠ 1`. -/
theorem propagateNHChain_zero_mass_bug :
    (propagateNHChain (fun x => 1 + x) (2/25) 1 1 1 [0] 1 0 1 [0] [1, 0] [0]).divZero
        = true ∧
    (propagateNHChain (fun x => 1 + x) (2/25) 1 1 1 [0] 1 0 1 [0] [1, 0] [0]).factor
        ≠ 1 := by
  constructor <;> norm_num [propagateNHChain, nhLoop, subIter, sweepIn, sweepOut, advanceEta]

/-- C6: `step(n)` on an unbound integrator (`context == NULL`,
VVIntegrator.cpp:198-199) fails with the unbound-usage error and applies no
integration step; on a bound integrator it runs the per-step sequence `n`
times. -/
theorem stepIntegrator_unbound_error {σ : Type} (stepOnce : σ → σ) (n : ℕ) (s : σ) :
    stepIntegrator (none : Option σ) stepOnce n
        = Except.error "This Integrator is not bound to a context!" ∧
    stepIntegrator (some s) stepOnce n = Except.ok (stepOnce^[n] s) :=
  ⟨rfl, rfl⟩

/-- C7: after the bind-time DOF accounting of `CudaModifyDrudeNoseKernel`,
the count of every temperature group (Atom, CenterOfMass, Drude) is
nonnegative, for every configuration: the final loop
(CudaVVKernels.cpp:377-378) clamps each group to zero. -/
theorem computeTempGroupDof_nonneg (sys : DofSystem) :
    0 ≤ (computeTempGroupDof sys).atom ∧ 0 ≤ (computeTempGroupDof sys).com ∧
      0 ≤ (computeTempGroupDof sys).drude := by
  refine ⟨?_, ?_, ?_⟩ <;> simp [computeTempGroupDof]

/-- C10: the binding guard of `VVIntegrator::initialize`
(VVIntegrator.cpp:89-91) does not raise when the new context's owner equals
the stored owner, and raises exactly when a stored owner exists and
differs from the new one. -/
theorem bindGuard_same_owner_ok (o o' : ℕ) (w : Option ℕ) :
    bindGuard (some o) o = Except.ok () ∧
    (bindGuard w o' = Except.error "This Integrator is already bound to a context"
      ↔ ∃ u, w = some u ∧ o' ≠ u) := by
  constructor
  · simp [bindGuard]
  · cases w with
    | none => simp [bindGuard]
    | some u =>
        by_cases h : o' = u <;> simp [bindGuard, h]

/-- Each `addImagePair` call returns the size of `imagePairs` after its
append, so from a registry holding `m` pairs the calls return
`m+1, m+2, ...`. -/
lemma runAddImagePairs_eq (s : ImageRegistry) (calls : List (ℕ × ℕ)) :
    runAddImagePairs s calls =
      (List.range calls.length).map (fun k => s.imagePairs.length + k + 1) := by
  induction calls generalizing s with
  | nil => simp [runAddImagePairs]
  | cons c rest ih =>
      obtain ⟨image, parent⟩ := c
      simp only [runAddImagePairs, addImagePair, List.length_cons,
        List.range_succ_eq_map, List.map_cons, List.map_map]
      refine List.cons_eq_cons.mpr ⟨?_, ?_⟩
      · simp
      · rw [ih]
        refine List.map_congr_left fun k _ => ?_
        simp [Function.comp]
        omega

/-- C8: on a freshly constructed integrator, successive
`addImagePair(image, parent)` calls return `1, 2, 3, ...` in registration
order (the `k`-th call returns the new total number of registered image
pairs, VVIntegrator.cpp:73-77). -/
theorem addImagePair_returns_running_count (calls : List (ℕ × ℕ)) :
    runAddImagePairs { particlesImage := [], imagePairs := [] } calls =
      (List.range calls.length).map (fun k => k + 1) := by
  simp [runAddImagePairs_eq]

/-- Without the COM temperature group, each NH particle of nonzero mass adds
exactly `3` to the Atom group's running count. -/
lemma dofParticleLoop_all_nh (ps : List DofParticle) (a : ℚ)
    (h : ∀ p ∈ ps, p.isNH = true ∧ p.mass ≠ 0) :
    dofParticleLoop false ps a = a + 3 * ps.length := by
  induction ps generalizing a with
  | nil => simp [dofParticleLoop]
  | cons p rest ih =>
      have hp := h p (List.mem_cons_self p rest)
      have hrest : ∀ q ∈ rest, q.isNH = true ∧ q.mass ≠ 0 :=
        fun q hq => h q (List.mem_cons_of_mem p hq)
      simp only [dofParticleLoop, List.foldl_cons] at *
      rw [if_pos hp, if_neg (by simp : ¬ false = true), ih (a + 3) hrest]
      simp only [List.length_cons]
      push_cast
      ring

/-- C3: with zero Drude pairs, zero constraints, `useCOMTempGroup = false`,
no `CMMotionRemover`, and `N` NH-thermostatted particles all of nonzero
mass, the bind-time accounting (CudaVVKernels.cpp:314-378) assigns the Atom
temperature group exactly `3N` degrees of freedom. -/
theorem dof_atom_group_eq_three_n (ps : List DofParticle) (nres : ℕ)
    (h : ∀ p ∈ ps, p.isNH = true ∧ p.mass ≠ 0) :
    (computeTempGroupDof
      { particles := ps, drudeCoreIsNH := [], constraintIsNH := [],
        useCOMTempGroup := false, hasCMMotionRemover := false,
        numResiduesNH := nres }).atom = 3 * ps.length := by
  simp only [computeTempGroupDof, List.foldl_nil]
  rw [dofParticleLoop_all_nh ps 0 h]
  have h3 : (0 : ℚ) ≤ 3 * ps.length := by positivity
  simp [max_eq_left, h3]

/-- Concrete instance of C3: two NH particles of masses `1` and `2`. -/
theorem dof_atom_group_eq_three_n_witness :
    (∀ p ∈ [({ mass := 1, isNH := true, resInvMass := 1 } : DofParticle),
            { mass := 2, isNH := true, resInvMass := 1/3 }],
        p.isNH = true ∧ p.mass ≠ 0) ∧
    (computeTempGroupDof
      { particles := [({ mass := 1, isNH := true, resInvMass := 1 } : DofParticle),
                      { mass := 2, isNH := true, resInvMass := 1/3 }],
        drudeCoreIsNH := [], constraintIsNH := [],
        useCOMTempGroup := false, hasCMMotionRemover := false,
        numResiduesNH := 1 }).atom
      = 3 * ([({ mass := 1, isNH := true, resInvMass := 1 } : DofParticle),
              { mass := 2, isNH := true, resInvMass := 1/3 }].length) := by
  have h : ∀ p ∈ [({ mass := 1, isNH := true, resInvMass := 1 } : DofParticle),
            { mass := 2, isNH := true, resInvMass := 1/3 }],
      p.isNH = true ∧ p.mass ≠ 0 := by
    intro p hp
    rcases List.mem_cons.mp hp with h1 | h1
    · subst h1; norm_num
    · rcases List.mem_cons.mp h1 with h2 | h2
      · subst h2; norm_num
      · simp at h2
  exact ⟨h, dof_atom_group_eq_three_n _ 1 h⟩

/-- Membership in the `residuesNH` list built by VVIntegrator.cpp:126-128:
a residue id is collected exactly when some particle below the bound is
NH-thermostatted (neither Langevin nor image) and lives in it. -/
lemma mem_residuesNHList (isLD isImage : ℕ → Bool) (resId : ℕ → ℕ) (n : ℕ) (r : ℕ) :
    r ∈ residuesNHList isLD isImage resId n ↔
      ∃ j, j < n ∧ (isLD j = false ∧ isImage j = false) ∧ resId j = r := by
  induction n with
  | zero => simp [residuesNHList]
  | succ n ih =>
      simp only [residuesNHList]
      by_cases hnh : isLD n = false ∧ isImage n = false
      · rw [if_pos hnh]
        by_cases hmem : resId n ∈ residuesNHList isLD isImage resId n
        · rw [if_pos hmem]
          rw [ih]
          constructor
          · rintro ⟨j, hj, hq, hr⟩
            exact ⟨j, Nat.lt_succ_of_lt hj, hq, hr⟩
          · rintro ⟨j, hj, hq, hr⟩
            rcases Nat.lt_succ_iff_lt_or_eq.mp hj with hj' | hj'
            · exact ⟨j, hj', hq, hr⟩
            · subst hj'
              subst hr
              exact ih.mp hmem
        · rw [if_neg hmem]
          rw [List.mem_append, ih]
          constructor
          · rintro (⟨j, hj, hq, hr⟩ | hr)
            · exact ⟨j, Nat.lt_succ_of_lt hj, hq, hr⟩
            · exact ⟨n, Nat.lt_succ_self n, hnh, (List.mem_singleton.mp hr).symm⟩
          · rintro ⟨j, hj, hq, hr⟩
            rcases Nat.lt_succ_iff_lt_or_eq.mp hj with hj' | hj'
            · exact Or.inl ⟨j, hj', hq, hr⟩
            · subst hj'
              exact Or.inr (List.mem_singleton.mpr hr.symm)
      · rw [if_neg hnh]
        rw [ih]
        constructor
        · rintro ⟨j, hj, hq, hr⟩
          exact ⟨j, Nat.lt_succ_of_lt hj, hq, hr⟩
        · rintro ⟨j, hj, hq, hr⟩
          rcases Nat.lt_succ_iff_lt_or_eq.mp hj with hj' | hj'
          · exact ⟨j, hj', hq, hr⟩
          · subst hj'
            exact absurd hq hnh

/-- C5: the classification stage of `VVIntegrator::initialize`
(VVIntegrator.cpp:123-136) fails with the NH/Langevin configuration-conflict
error exactly when some residue contains both a Langevin-thermostatted
particle and an NH-thermostatted (neither Langevin nor image) particle;
otherwise it succeeds. -/
theorem classifyResidues_error_iff (n : ℕ) (isLD isImage : ℕ → Bool) (resId : ℕ → ℕ) :
    classifyResidues n isLD isImage resId
        = Except.error "NH and Langevin thermostat cannot be applied on the same molecule"
      ↔ ∃ i, i < n ∧ isLD i = true ∧
          ∃ j, j < n ∧ (isLD j = false ∧ isImage j = false) ∧ resId j = resId i := by
  unfold classifyResidues
  by_cases hc : ∃ i ∈ List.range n, isLD i = true ∧
      resId i ∈ residuesNHList isLD isImage resId n
  · rw [if_pos hc]
    simp only [true_iff]
    obtain ⟨i, hi, hld, hmem⟩ := hc
    exact ⟨i, List.mem_range.mp hi, hld, (mem_residuesNHList _ _ _ _ _).mp hmem⟩
  · rw [if_neg hc]
    simp only [reduceCtorEq, false_iff]
    rintro ⟨i, hi, hld, j, hj, hq, hr⟩
    exact hc ⟨i, List.mem_range.mpr hi, hld,
      (mem_residuesNHList _ _ _ _ _).mpr ⟨j, hj, hq, hr⟩⟩

/-- The inward sweep writes only `etaDot` slots below its iteration count. -/
lemma sweepIn_frame (E : ℚ → ℚ) (dt4 dt8 : ℚ) (edd : List ℚ) :
    ∀ (k : ℕ) (ed : List ℚ) (e : ℚ) (j : ℕ), k ≤ j →
      ((sweepIn E dt4 dt8 edd k ed e).1)[j]? = ed[j]? := by
  intro k
  induction k with
  | zero => intro ed e j _; rfl
  | succ k ih =>
      intro ed e j hj
      simp only [sweepIn]
      rw [ih _ _ j (by omega)]
      exact List.getElem?_set_ne (by omega)

/-- The outward sweep writes only slots between its start index and the
start index plus its remaining fuel. -/
lemma sweepOut_frame (E : ℚ → ℚ) (kb t_target dt4 dt8 : ℚ) (mass : List ℚ) :
    ∀ (fuel ich : ℕ) (ed edd : List ℚ) (dz : Bool) (j : ℕ), ich + fuel ≤ j →
      ((sweepOut E kb t_target dt4 dt8 mass ich fuel ed edd dz).1)[j]? = ed[j]? ∧
      ((sweepOut E kb t_target dt4 dt8 mass ich fuel ed edd dz).2.1)[j]? = edd[j]? := by
  intro fuel
  induction fuel with
  | zero => intro ich ed edd dz j _; exact ⟨rfl, rfl⟩
  | succ fuel ih =>
      intro ich ed edd dz j hj
      simp only [sweepOut]
      obtain ⟨h1, h2⟩ := ih (ich + 1) _ _ _ j (by omega)
      rw [h1, h2]
      exact ⟨List.getElem?_set_ne (by omega), List.getElem?_set_ne (by omega)⟩

/-- A fold of single-slot writes at indices different from `j` leaves the
read at `j` unchanged. -/
lemma foldl_set_frame (f : List ℚ → ℕ → ℚ) :
    ∀ (ix : List ℕ) (eta : List ℚ) (j : ℕ), (∀ i ∈ ix, i ≠ j) →
      (ix.foldl (fun ac ich => ac.set ich (f ac ich)) eta)[j]? = eta[j]? := by
  intro ix
  induction ix with
  | nil => intro eta j _; rfl
  | cons i rest ih =>
      intro eta j hw
      simp only [List.foldl_cons]
      rw [ih _ j (fun a ha => hw a (List.mem_cons_of_mem i ha))]
      exact List.getElem?_set_ne (hw i (List.mem_cons_self i rest))

/-- `advanceEta` writes only `eta` slots below the chain length. -/
lemma advanceEta_frame (dt2 : ℚ) (ed : List ℚ) (n : ℕ) (eta : List ℚ) (j : ℕ)
    (hj : n ≤ j) : (advanceEta dt2 ed n eta)[j]? = eta[j]? := by
  unfold advanceEta
  exact foldl_set_frame _ (List.range n) eta j
    (fun i hi => by have := List.mem_range.mp hi; omega)

/-- One sub-iteration of the chain loop touches no slot at or beyond the
chain length in any of the three vectors. -/
lemma subIter_frame (E : ℚ → ℚ) (kb dt2 dt4 dt8 : ℚ) (n : ℕ) (mass : List ℚ)
    (ke2 ke2_target t_target : ℚ) (s : ChainState) (j : ℕ) (hn : 1 ≤ n) (hj : n ≤ j) :
    (subIter E kb dt2 dt4 dt8 n mass ke2 ke2_target t_target s).etaDot[j]? = s.etaDot[j]? ∧
    (subIter E kb dt2 dt4 dt8 n mass ke2 ke2_target t_target s).eta[j]? = s.eta[j]? ∧
    (subIter E kb dt2 dt4 dt8 n mass ke2 ke2_target t_target s).etaDotDot[j]?
      = s.etaDotDot[j]? := by
  obtain ⟨ho1, ho2⟩ := sweepOut_frame E kb t_target dt4 dt8 mass (n - 1) 1
    (((sweepIn E dt4 dt8 s.etaDotDot n s.etaDot 1).1).set 0
      ((((sweepIn E dt4 dt8 s.etaDotDot n s.etaDot 1).1.getD 0 0
          * (sweepIn E dt4 dt8 s.etaDotDot n s.etaDot 1).2)
        + ((ke2 * (s.factor * E (-dt2 * (sweepIn E dt4 dt8 s.etaDotDot n s.etaDot 1).1.getD 0 0))
            * (s.factor * E (-dt2 * (sweepIn E dt4 dt8 s.etaDotDot n s.etaDot 1).1.getD 0 0))
            - ke2_target) / mass.getD 0 0) * dt4)
        * (sweepIn E dt4 dt8 s.etaDotDot n s.etaDot 1).2))
    (s.etaDotDot.set 0
      ((ke2 * (s.factor * E (-dt2 * (sweepIn E dt4 dt8 s.etaDotDot n s.etaDot 1).1.getD 0 0))
          * (s.factor * E (-dt2 * (sweepIn E dt4 dt8 s.etaDotDot n s.etaDot 1).1.getD 0 0))
          - ke2_target) / mass.getD 0 0))
    (s.divZero || decide (mass.getD 0 0 = 0)) j (by omega)
  refine ⟨?_, ?_, ?_⟩
  · show (sweepOut E kb t_target dt4 dt8 mass 1 (n - 1) _ _ _).1[j]? = _
    rw [ho1, List.getElem?_set_ne (by omega : (0 : ℕ) ≠ j),
      sweepIn_frame E dt4 dt8 s.etaDotDot n s.etaDot 1 j (by omega)]
  · show (advanceEta dt2 _ n s.eta)[j]? = _
    exact advanceEta_frame _ _ n s.eta j hj
  · show (sweepOut E kb t_target dt4 dt8 mass 1 (n - 1) _ _ _).2.1[j]? = _
    rw [ho2, List.getElem?_set_ne (by omega : (0 : ℕ) ≠ j)]

/-- The whole sub-iteration loop touches no slot at or beyond the chain
length. -/
lemma nhLoop_frame (E : ℚ → ℚ) (kb dt2 dt4 dt8 : ℚ) (n : ℕ) (mass : List ℚ)
    (ke2 ke2_target t_target : ℚ) (j : ℕ) (hn : 1 ≤ n) (hj : n ≤ j) :
    ∀ (k : ℕ) (s : ChainState),
      (nhLoop E kb dt2 dt4 dt8 n mass ke2 ke2_target t_target k s).etaDot[j]?
          = s.etaDot[j]? ∧
      (nhLoop E kb dt2 dt4 dt8 n mass ke2 ke2_target t_target k s).eta[j]? = s.eta[j]? ∧
      (nhLoop E kb dt2 dt4 dt8 n mass ke2 ke2_target t_target k s).etaDotDot[j]?
          = s.etaDotDot[j]? := by
  intro k
  induction k with
  | zero => intro s; exact ⟨rfl, rfl, rfl⟩
  | succ k ih =>
      intro s
      obtain ⟨h1, h2, h3⟩ :=
        subIter_frame E kb dt2 dt4 dt8 n mass ke2 ke2_target t_target s j hn hj
      obtain ⟨g1, g2, g3⟩ :=
        ih (subIter E kb dt2 dt4 dt8 n mass ke2 ke2_target t_target s)
      exact ⟨g1.trans h1, g2.trans h2, g3.trans h3⟩

/-- C9: `propagateNHChain` never writes `eta`, `etaDot` or `etaDotDot` at
any index at or beyond `numNHChains`; in particular the terminator slot
`etaDot[numNHChains]` read at VVIntegrator.cpp:286 and 301 keeps its initial
value for all inputs and all `loopsPerStep`. -/
theorem propagateNHChain_frame (E : ℚ → ℚ) (kb stepSize : ℚ)
    (loopsPerStep numNHChains : ℕ) (mass : List ℚ) (ke2 ke2_target t_target : ℚ)
    (eta ed edd : List ℚ) (j : ℕ) (hn : 1 ≤ numNHChains) (hj : numNHChains ≤ j) :
    (propagateNHChain E kb stepSize loopsPerStep numNHChains mass ke2 ke2_target
        t_target eta ed edd).etaDot[j]? = ed[j]? ∧
    (propagateNHChain E kb stepSize loopsPerStep numNHChains mass ke2 ke2_target
        t_target eta ed edd).eta[j]? = eta[j]? ∧
    (propagateNHChain E kb stepSize loopsPerStep numNHChains mass ke2 ke2_target
        t_target eta ed edd).etaDotDot[j]? = edd[j]? := by
  unfold propagateNHChain
  obtain ⟨h1, h2, h3⟩ := nhLoop_frame E kb (stepSize / (loopsPerStep : ℚ) / 2)
    (stepSize / (loopsPerStep : ℚ) / 2 / 2) (stepSize / (loopsPerStep : ℚ) / 2 / 2 / 2)
    numNHChains mass ke2 ke2_target t_target j hn hj loopsPerStep
    { eta := eta, etaDot := ed,
      etaDotDot := if mass.getD 0 0 > 0
        then edd.set 0 ((ke2 - ke2_target) / mass.getD 0 0) else edd,
      factor := 1, divZero := false }
  refine ⟨h1, h2, h3.trans ?_⟩
  by_cases hm : mass.getD 0 0 > 0
  · rw [if_pos hm]
    exact List.getElem?_set_ne (by omega : (0 : ℕ) ≠ j)
  · rw [if_neg hm]

/-- Concrete instance of C9: one chain link, terminator slot `etaDot[1]`
unchanged by a call, as are the out-of-range reads of `eta` and
`etaDotDot`. -/
theorem propagateNHChain_frame_witness :
    (1 ≤ 1 ∧ (1 : ℕ) ≤ 1) ∧
    ((propagateNHChain (fun x => 1 + x) (2/25) 1 2 1 [2] 3 7 5 [4] [3, 5] [6]).etaDot[1]?
        = ([3, 5] : List ℚ)[1]? ∧
     (propagateNHChain (fun x => 1 + x) (2/25) 1 2 1 [2] 3 7 5 [4] [3, 5] [6]).eta[1]?
        = ([4] : List ℚ)[1]? ∧
     (propagateNHChain (fun x => 1 + x) (2/25) 1 2 1 [2] 3 7 5 [4] [3, 5] [6]).etaDotDot[1]?
        = ([6] : List ℚ)[1]?) :=
  ⟨⟨le_refl 1, le_refl 1⟩,
    propagateNHChain_frame (fun x => 1 + x) (2/25) 1 2 1 [2] 3 7 5 [4] [3, 5] [6] 1
      (le_refl 1) (le_refl 1)⟩

/-- If the innermost `etaDot` and `etaDotDot` slots are zero, the inward
sweep leaves the innermost `etaDot` slot zero (its half-kick multiplies and
adds zeros). -/
lemma sweepIn_getD_zero (E : ℚ → ℚ) (dt4 dt8 : ℚ) (edd : List ℚ)
    (hdd : edd.getD 0 0 = 0) :
    ∀ (k : ℕ) (ed : List ℚ) (e : ℚ), ed.getD 0 0 = 0 →
      (sweepIn E dt4 dt8 edd k ed e).1.getD 0 0 = 0 := by
  intro k
  induction k with
  | zero => intro ed e h; exact h
  | succ k ih =>
      intro ed e h
      simp only [sweepIn]
      apply ih
      by_cases hk : k = 0
      · subst hk
        have hv : (ed.getD 0 0 * E (-dt8 * ed.getD (0 + 1) 0) + edd.getD 0 0 * dt4)
            * E (-dt8 * ed.getD (0 + 1) 0) = 0 := by
          rw [h, hdd]; ring
        rw [hv]
        exact getD_set_self_zero ed 0
      · rw [getD_set_ne ed k 0 _ hk]
        exact h

/-- The outward sweep starts at link 1, so the innermost `etaDot` slot is
untouched by it. -/
lemma sweepOut_fst_getD_zero (E : ℚ → ℚ) (kb t_target dt4 dt8 : ℚ) (mass : List ℚ) :
    ∀ (fuel ich : ℕ), 1 ≤ ich → ∀ (ed edd : List ℚ) (dz : Bool),
      (sweepOut E kb t_target dt4 dt8 mass ich fuel ed edd dz).1.getD 0 0
        = ed.getD 0 0 := by
  intro fuel
  induction fuel with
  | zero => intro ich _ ed edd dz; rfl
  | succ fuel ih =>
      intro ich hich ed edd dz
      simp only [sweepOut]
      rw [ih (ich + 1) (by omega)]
      exact getD_set_ne ed ich 0 _ (by omega)

/-- The outward sweep starts at link 1, so the innermost `etaDotDot` slot is
untouched by it. -/
lemma sweepOut_snd_getD_zero (E : ℚ → ℚ) (kb t_target dt4 dt8 : ℚ) (mass : List ℚ) :
    ∀ (fuel ich : ℕ), 1 ≤ ich → ∀ (ed edd : List ℚ) (dz : Bool),
      (sweepOut E kb t_target dt4 dt8 mass ich fuel ed edd dz).2.1.getD 0 0
        = edd.getD 0 0 := by
  intro fuel
  induction fuel with
  | zero => intro ich _ ed edd dz; rfl
  | succ fuel ih =>
      intro ich hich ed edd dz
      simp only [sweepOut]
      rw [ih (ich + 1) (by omega)]
      exact getD_set_ne edd ich 0 _ (by omega)

/-- One sub-iteration preserves the resting-chain invariant: scale factor
`1`, innermost `etaDot` slot `0`, innermost `etaDotDot` slot `0` (uses
`E 0 = 1` and `ke2 = ke2_target`). -/
lemma subIter_fixed (E : ℚ → ℚ) (kb dt2 dt4 dt8 : ℚ) (n : ℕ) (mass : List ℚ)
    (ke2 ke2_target t_target : ℚ) (hE : E 0 = 1) (hke : ke2 = ke2_target)
    (s : ChainState) (hf : s.factor = 1) (hd : s.etaDot.getD 0 0 = 0)
    (hdd : s.etaDotDot.getD 0 0 = 0) :
    (subIter E kb dt2 dt4 dt8 n mass ke2 ke2_target t_target s).factor = 1 ∧
    (subIter E kb dt2 dt4 dt8 n mass ke2 ke2_target t_target s).etaDot.getD 0 0 = 0 ∧
    (subIter E kb dt2 dt4 dt8 n mass ke2 ke2_target t_target s).etaDotDot.getD 0 0
      = 0 := by
  have hed1 : (sweepIn E dt4 dt8 s.etaDotDot n s.etaDot 1).1.getD 0 0 = 0 :=
    sweepIn_getD_zero E dt4 dt8 s.etaDotDot hdd n s.etaDot 1 hd
  have hfac : s.factor * E (-dt2 * (sweepIn E dt4 dt8 s.etaDotDot n s.etaDot 1).1.getD 0 0)
      = 1 := by
    rw [hed1, mul_zero, hE, hf, mul_one]
  have hdd0 : (ke2
      * (s.factor * E (-dt2 * (sweepIn E dt4 dt8 s.etaDotDot n s.etaDot 1).1.getD 0 0))
      * (s.factor * E (-dt2 * (sweepIn E dt4 dt8 s.etaDotDot n s.etaDot 1).1.getD 0 0))
      - ke2_target) / mass.getD 0 0 = 0 := by
    rw [hfac, hke]
    simp
  refine ⟨?_, ?_, ?_⟩
  · exact hfac
  · simp only [subIter]
    rw [sweepOut_fst_getD_zero E kb t_target dt4 dt8 mass (n - 1) 1 (le_refl 1),
      hdd0, hed1]
    simp only [zero_mul, zero_add, mul_zero, add_zero]
    exact getD_set_self_zero _ 0
  · simp only [subIter]
    rw [sweepOut_snd_getD_zero E kb t_target dt4 dt8 mass (n - 1) 1 (le_refl 1), hdd0]
    exact getD_set_self_zero _ 0

/-- The resting-chain invariant survives any number of sub-iterations. -/
lemma nhLoop_fixed (E : ℚ → ℚ) (kb dt2 dt4 dt8 : ℚ) (n : ℕ) (mass : List ℚ)
    (ke2 ke2_target t_target : ℚ) (hE : E 0 = 1) (hke : ke2 = ke2_target) :
    ∀ (k : ℕ) (s : ChainState), s.factor = 1 → s.etaDot.getD 0 0 = 0 →
      s.etaDotDot.getD 0 0 = 0 →
      (nhLoop E kb dt2 dt4 dt8 n mass ke2 ke2_target t_target k s).factor = 1 := by
  intro k
  induction k with
  | zero => intro s hf _ _; exact hf
  | succ k ih =>
      intro s hf hd hdd
      obtain ⟨h1, h2, h3⟩ := subIter_fixed E kb dt2 dt4 dt8 n mass ke2 ke2_target
        t_target hE hke s hf hd hdd
      exact ih _ h1 h2 h3

/-- C4: when every `etaDot` entry starts at zero, `etaMass[0] > 0` and
`ke2 = ke2_target`, one call to `propagateNHChain` returns scale factor
exactly `1`, for any `numNHChains` and `loopsPerStep` (the target kinetic
energy with a resting chain is a fixed point of the velocity scaling; only
`E 0 = 1`, true of IEEE `exp` as well, is used). -/
theorem propagateNHChain_fixed_point (E : ℚ → ℚ) (kb stepSize : ℚ)
    (loopsPerStep numNHChains : ℕ) (mass : List ℚ) (ke2 ke2_target t_target : ℚ)
    (eta ed edd : List ℚ) (hE : E 0 = 1) (hm : 0 < mass.getD 0 0)
    (hed : ∀ i, ed.getD i 0 = 0) (hke : ke2 = ke2_target) :
    (propagateNHChain E kb stepSize loopsPerStep numNHChains mass ke2 ke2_target
      t_target eta ed edd).factor = 1 := by
  unfold propagateNHChain
  apply nhLoop_fixed _ _ _ _ _ _ _ _ _ _ hE hke
  · rfl
  · exact hed 0
  · show (if mass.getD 0 0 > 0 then edd.set 0 ((ke2 - ke2_target) / mass.getD 0 0)
      else edd).getD 0 0 = 0
    rw [if_pos hm, hke, sub_self, zero_div]
    exact getD_set_self_zero edd 0

/-- Concrete instance of C4: two chain links at rest with matching kinetic
energies keep scale factor `1` across two sub-iterations. -/
theorem propagateNHChain_fixed_point_witness :
    ((fun x => (1 : ℚ) + x) 0 = 1 ∧ (0 : ℚ) < ([2, 1] : List ℚ).getD 0 0 ∧
      (∀ i, ([0, 0, 0] : List ℚ).getD i 0 = 0) ∧ (3 : ℚ) = 3) ∧
    (propagateNHChain (fun x => 1 + x) (2/25) 1 2 2 [2, 1] 3 3 5 [0, 0] [0, 0, 0]
      [7, 9]).factor = 1 := by
  have hed : ∀ i, ([0, 0, 0] : List ℚ).getD i 0 = 0 := by
    intro i
    rcases i with _ | _ | _ | i <;> simp [List.getD]
  exact ⟨⟨by norm_num, by norm_num [List.getD], hed, rfl⟩,
    propagateNHChain_fixed_point (fun x => 1 + x) (2/25) 1 2 2 [2, 1] 3 3 5 [0, 0]
      [0, 0, 0] [7, 9] (by norm_num) (by norm_num [List.getD]) hed rfl⟩

/-- The three-statement half-kick of the source's inward sweep computes the
single expression of §4.3 step 1. -/
lemma sweepIn_eq_spec (E : ℚ → ℚ) (dt4 dt8 : ℚ) (edd : List ℚ) :
    ∀ (k : ℕ) (ed : List ℚ) (e : ℚ),
      sweepIn E dt4 dt8 edd k ed e = specSweepIn E dt4 dt8 edd k ed e := by
  intro k
  induction k with
  | zero => intro ed e; rfl
  | succ k ih =>
      intro ed e
      simp only [sweepIn, specSweepIn]
      exact ih _ _

/-- The source's outward sweep computes §4.3 step 5 (the recomputed
`etaDotDot` uses `etaDot[ich−1]²`, written as a repeated product in the
source). -/
lemma sweepOut_eq_spec (E : ℚ → ℚ) (kb t_target dt4 dt8 : ℚ) (mass : List ℚ) :
    ∀ (fuel ich : ℕ) (ed edd : List ℚ) (dz : Bool),
      (sweepOut E kb t_target dt4 dt8 mass ich fuel ed edd dz).1
          = (specSweepOut E kb t_target dt4 dt8 mass ich fuel ed edd).1 ∧
      (sweepOut E kb t_target dt4 dt8 mass ich fuel ed edd dz).2.1
          = (specSweepOut E kb t_target dt4 dt8 mass ich fuel ed edd).2 := by
  intro fuel
  induction fuel with
  | zero => intro ich ed edd dz; exact ⟨rfl, rfl⟩
  | succ fuel ih =>
      intro ich ed edd dz
      simp only [sweepOut, specSweepOut]
      have hdd : (mass.getD (ich - 1) 0 * ed.getD (ich - 1) 0 ^ 2 - kb * t_target)
            / mass.getD ich 0
          = (mass.getD (ich - 1) 0 * ed.getD (ich - 1) 0 * ed.getD (ich - 1) 0
            - kb * t_target) / mass.getD ich 0 := by
        ring
      rw [hdd]
      exact ih (ich + 1) _ _ _

/-- One sub-iteration of the source equals one sub-iteration of §4.3 on
componentwise-equal states. -/
lemma subIter_eq_spec (E : ℚ → ℚ) (kb dt2 dt4 dt8 : ℚ) (n : ℕ) (mass : List ℚ)
    (ke2 ke2_target t_target : ℚ) (s : ChainState) (t : SpecChainState)
    (h1 : s.eta = t.eta) (h2 : s.etaDot = t.etaDot) (h3 : s.etaDotDot = t.etaDotDot)
    (h4 : s.factor = t.scale) :
    (subIter E kb dt2 dt4 dt8 n mass ke2 ke2_target t_target s).eta
        = (specSubIter E kb dt2 dt4 dt8 n mass ke2 ke2_target t_target t).eta ∧
    (subIter E kb dt2 dt4 dt8 n mass ke2 ke2_target t_target s).etaDot
        = (specSubIter E kb dt2 dt4 dt8 n mass ke2 ke2_target t_target t).etaDot ∧
    (subIter E kb dt2 dt4 dt8 n mass ke2 ke2_target t_target s).etaDotDot
        = (specSubIter E kb dt2 dt4 dt8 n mass ke2 ke2_target t_target t).etaDotDot ∧
    (subIter E kb dt2 dt4 dt8 n mass ke2 ke2_target t_target s).factor
        = (specSubIter E kb dt2 dt4 dt8 n mass ke2 ke2_target t_target t).scale := by
  obtain ⟨se, sd, sdd, sf, sz⟩ := s
  obtain ⟨te, td, tdd, tf⟩ := t
  simp only at h1 h2 h3 h4
  subst h1; subst h2; subst h3; subst h4
  simp only [subIter, specSubIter]
  rw [sweepIn_eq_spec E dt4 dt8 sdd n sd 1]
  have hdd0 : ∀ F m : ℚ, (ke2 * F * F - ke2_target) / m = (ke2 * F ^ 2 - ke2_target) / m :=
    fun F m => by ring
  rw [hdd0]
  refine ⟨rfl, ?_, ?_, rfl⟩
  · exact (sweepOut_eq_spec E kb t_target dt4 dt8 mass (n - 1) 1 _ _ _).1
  · exact (sweepOut_eq_spec E kb t_target dt4 dt8 mass (n - 1) 1 _ _ _).2

/-- The sub-iteration loops of the source and of §4.3 stay componentwise
equal for any number of iterations. -/
lemma nhLoop_eq_spec (E : ℚ → ℚ) (kb dt2 dt4 dt8 : ℚ) (n : ℕ) (mass : List ℚ)
    (ke2 ke2_target t_target : ℚ) :
    ∀ (k : ℕ) (s : ChainState) (t : SpecChainState),
      s.eta = t.eta → s.etaDot = t.etaDot → s.etaDotDot = t.etaDotDot →
      s.factor = t.scale →
      (nhLoop E kb dt2 dt4 dt8 n mass ke2 ke2_target t_target k s).eta
          = (specLoop E kb dt2 dt4 dt8 n mass ke2 ke2_target t_target k t).eta ∧
      (nhLoop E kb dt2 dt4 dt8 n mass ke2 ke2_target t_target k s).etaDot
          = (specLoop E kb dt2 dt4 dt8 n mass ke2 ke2_target t_target k t).etaDot ∧
      (nhLoop E kb dt2 dt4 dt8 n mass ke2 ke2_target t_target k s).etaDotDot
          = (specLoop E kb dt2 dt4 dt8 n mass ke2 ke2_target t_target k t).etaDotDot ∧
      (nhLoop E kb dt2 dt4 dt8 n mass ke2 ke2_target t_target k s).factor
          = (specLoop E kb dt2 dt4 dt8 n mass ke2 ke2_target t_target k t).scale := by
  intro k
  induction k with
  | zero => intro s t h1 h2 h3 h4; exact ⟨h1, h2, h3, h4⟩
  | succ k ih =>
      intro s t h1 h2 h3 h4
      obtain ⟨g1, g2, g3, g4⟩ := subIter_eq_spec E kb dt2 dt4 dt8 n mass ke2
        ke2_target t_target s t h1 h2 h3 h4
      exact ih _ _ g1 g2 g3 g4

/-- C2: for every chain state, energies, target temperature,
`loopsPerStep ≥ 1`, `numNHChains ≥ 1` and positive innermost chain mass (the
zero-mass chain is the degenerate case §4.3 carves out separately),
`propagateNHChain` computes exactly the reference sequence of §4.3 — same
`eta`, `etaDot`, `etaDotDot` and scale factor; being a Lean function of its
inputs, the result is deterministic. -/
theorem propagateNHChain_refines_spec (E : ℚ → ℚ) (kb stepSize : ℚ)
    (loopsPerStep numNHChains : ℕ) (mass : List ℚ) (ke2 ke2_target t_target : ℚ)
    (eta ed edd : List ℚ) (hl : 1 ≤ loopsPerStep) (hn : 1 ≤ numNHChains)
    (hm : 0 < mass.getD 0 0) :
    (propagateNHChain E kb stepSize loopsPerStep numNHChains mass ke2 ke2_target
        t_target eta ed edd).eta
      = (specPropagateNHChain E kb stepSize loopsPerStep numNHChains mass ke2
        ke2_target t_target eta ed edd).eta ∧
    (propagateNHChain E kb stepSize loopsPerStep numNHChains mass ke2 ke2_target
        t_target eta ed edd).etaDot
      = (specPropagateNHChain E kb stepSize loopsPerStep numNHChains mass ke2
        ke2_target t_target eta ed edd).etaDot ∧
    (propagateNHChain E kb stepSize loopsPerStep numNHChains mass ke2 ke2_target
        t_target eta ed edd).etaDotDot
      = (specPropagateNHChain E kb stepSize loopsPerStep numNHChains mass ke2
        ke2_target t_target eta ed edd).etaDotDot ∧
    (propagateNHChain E kb stepSize loopsPerStep numNHChains mass ke2 ke2_target
        t_target eta ed edd).factor
      = (specPropagateNHChain E kb stepSize loopsPerStep numNHChains mass ke2
        ke2_target t_target eta ed edd).scale := by
  unfold propagateNHChain specPropagateNHChain
  apply nhLoop_eq_spec
  · rfl
  · rfl
  · show (if mass.getD 0 0 > 0 then edd.set 0 ((ke2 - ke2_target) / mass.getD 0 0)
      else edd) = edd.set 0 ((ke2 - ke2_target) / mass.getD 0 0)
    rw [if_pos hm]
  · rfl

/-- Concrete instance of C2: one chain link, one sub-iteration, chain mass
`2`. -/
theorem propagateNHChain_refines_spec_witness :
    ((1 : ℕ) ≤ 1 ∧ (1 : ℕ) ≤ 1 ∧ (0 : ℚ) < ([2] : List ℚ).getD 0 0) ∧
    (propagateNHChain (fun x => 1 + x) (2/25) 1 1 1 [2] 3 7 5 [4] [3, 5] [6]).factor
      = (specPropagateNHChain (fun x => 1 + x) (2/25) 1 1 1 [2] 3 7 5 [4] [3, 5]
        [6]).scale :=
  ⟨⟨le_refl 1, le_refl 1, by norm_num [List.getD]⟩,
    (propagateNHChain_refines_spec (fun x => 1 + x) (2/25) 1 1 1 [2] 3 7 5 [4] [3, 5]
      [6] (le_refl 1) (le_refl 1) (by norm_num [List.getD])).2.2.2⟩

end VV
